import Mathlib

set_option autoImplicit false

/-!
Shallow embedding of the toolani/go-translation-api repository for
specification checking.

The embedding models the adapter-based `datastore.DataStore` (the revision of
`datastore/datastore.go` whose operations go through the `Adapter` interface),
the sqlite3 migration engine (`datastore/sqlite3_adapter.go`), and the XLIFF
codec (`xliff` package: `Export`, `NewFromFile`, `infoFromFilename`).

The SQL backend is modelled as an in-memory relational state (`DB`): each
table is a list of rows and `AUTOINCREMENT` primary keys are modelled with
explicit `next*Id` counters.  Single-row `SELECT` queries (`QueryRow.Scan`)
return the first matching row, `sql.ErrNoRows` becomes `DSError.noRows`.
In-memory query execution itself cannot fail, so the only storage errors that
arise are the no-row conditions; functions whose control flow depends on
injected driver failures (`filepath.Glob`, `db.Exec`) take the outcome of
that step as an explicit argument.
-/

namespace TransApi

/-- `trans.Language` (also the `language` table row: columns id, name, code). -/
structure Language where
  id : Int
  name : String
  code : String
deriving Repr, DecidableEq

/-- Row of the `domain` table. -/
structure DomainRow where
  id : Int
  name : String
deriving Repr, DecidableEq

/-- Row of the `string` table. -/
structure StringRow where
  id : Int
  name : String
  domainId : Int
deriving Repr, DecidableEq

/-- Row of the `translation` table. -/
structure TranslationRow where
  id : Int
  languageId : Int
  content : String
  stringId : Int
deriving Repr, DecidableEq

/-- The relational state backing the datastore. -/
structure DB where
  domains : List DomainRow
  languages : List Language
  strings : List StringRow
  translations : List TranslationRow
  nextDomainId : Int
  nextLanguageId : Int
  nextStringId : Int
  nextTranslationId : Int
deriving Repr, DecidableEq

/-- Errors surfaced by datastore operations.  `noRows` is `sql.ErrNoRows`;
`languageNotFound code` is the wrapped "Language 'code' does not exist in
database" error produced by `getLanguage`; `alreadyExists` is
`datastore.ErrAlreadyExists`. -/
inductive DSError where
  | noRows
  | languageNotFound (code : String)
  | alreadyExists
deriving Repr, DecidableEq

/-- `noRows` and the wrapped language lookup failure are both "row absent"
(not-found) errors in the spec's taxonomy. -/
def DSError.isNotFound : DSError → Bool
  | .noRows => true
  | .languageNotFound _ => true
  | .alreadyExists => false

/-- `GetSingleLanguageQuery`: `SELECT id, name, code FROM language WHERE code=?`. -/
def lookupLanguage (db : DB) (code : String) : Option Language :=
  db.languages.find? (fun l => decide (l.code = code))

/-- `GetSingleDomainIdQuery`: `SELECT id FROM domain WHERE name=?`. -/
def lookupDomainId (db : DB) (name : String) : Option Int :=
  (db.domains.find? (fun d => decide (d.name = name))).map (fun d => d.id)

/-- `GetSingleStringIdQuery`: `SELECT id FROM string WHERE name = ? AND domain_id = ?`. -/
def lookupStringId (db : DB) (name : String) (domainId : Int) : Option Int :=
  (db.strings.find? (fun s => decide (s.name = name ∧ s.domainId = domainId))).map
    (fun s => s.id)

/-- `GetSingleTranslationIdQuery`: translation joined to its string, filtered on
`string.id=? AND language_id=? AND domain_id=?`. -/
def lookupTranslationId (db : DB) (stringId languageId domainId : Int) : Option Int :=
  match db.strings.find? (fun s => decide (s.id = stringId)) with
  | none => none
  | some s =>
    if s.domainId = domainId then
      (db.translations.find?
        (fun t => decide (t.stringId = stringId ∧ t.languageId = languageId))).map
        (fun t => t.id)
    else none

/-- `datastore.DataStore`: the backing database plus the two process-local
caches (`domainCache : name → id`, `stringCache : (domainId, name) → id`). -/
structure DataStore where
  db : DB
  domainCache : List (String × Int)
  stringCache : List ((Int × String) × Int)
deriving Repr, DecidableEq

/-- `DataStore.getLanguage`. -/
def getLanguage (ds : DataStore) (code : String) : Except DSError Language :=
  match lookupLanguage ds.db code with
  | none => .error (.languageNotFound code)
  | some l => .ok l

/-- `DataStore.getDomainId`: consult the cache, else query and populate the
cache on success. -/
def getDomainId (ds : DataStore) (name : String) : Except DSError Int × DataStore :=
  match ds.domainCache.find? (fun p => decide (p.1 = name)) with
  | some p => (.ok p.2, ds)
  | none =>
    match lookupDomainId ds.db name with
    | none => (.error .noRows, ds)
    | some i => (.ok i, { ds with domainCache := ds.domainCache ++ [(name, i)] })

/-- `DataStore.getStringId` (no cache involvement). -/
def getStringId (ds : DataStore) (name : String) (domainId : Int) : Except DSError Int :=
  match lookupStringId ds.db name domainId with
  | none => .error .noRows
  | some i => .ok i

/-- `DataStore.createString`: `INSERT INTO string (name, domain_id)`, the new
id obtained via LastInsertId. -/
def createString (db : DB) (name : String) (domainId : Int) : Int × DB :=
  (db.nextStringId,
   { db with
      strings := db.strings ++ [⟨db.nextStringId, name, domainId⟩],
      nextStringId := db.nextStringId + 1 })

/-- `DataStore.createOrGetString`: look up, create on `sql.ErrNoRows`. -/
def createOrGetString (ds : DataStore) (name : String) (domainId : Int) :
    Except DSError Int × DataStore :=
  match lookupStringId ds.db name domainId with
  | some i => (.ok i, ds)
  | none =>
    let r := createString ds.db name domainId
    (.ok r.1, { ds with db := r.2 })

/-- `DataStore.createDomain` (adapter revision): `INSERT INTO domain (name)`. -/
def createDomain (db : DB) (name : String) : Int × DB :=
  (db.nextDomainId,
   { db with
      domains := db.domains ++ [⟨db.nextDomainId, name⟩],
      nextDomainId := db.nextDomainId + 1 })

/-- `DataStore.createOrGetDomain`: `getDomainId`, create on `sql.ErrNoRows`. -/
def createOrGetDomain (ds : DataStore) (name : String) : Except DSError Int × DataStore :=
  match getDomainId ds name with
  | (.error .noRows, ds1) =>
    let r := createDomain ds1.db name
    (.ok r.1, { ds1 with db := r.2 })
  | other => other

/-- `DataStore.createTranslation`:
`INSERT INTO translation (language_id, content, string_id)`. -/
def createTranslation (db : DB) (languageId : Int) (content : String) (stringId : Int) :
    Int × DB :=
  (db.nextTranslationId,
   { db with
      translations := db.translations ++ [⟨db.nextTranslationId, languageId, content, stringId⟩],
      nextTranslationId := db.nextTranslationId + 1 })

/-- Effect of `UPDATE translation SET language_id=?, content=?, string_id=? WHERE id=?`
on the translation table. -/
def updateTranslationRows (rows : List TranslationRow) (transId languageId : Int)
    (content : String) (stringId : Int) : List TranslationRow :=
  rows.map (fun t =>
    if t.id = transId then
      { t with languageId := languageId, content := content, stringId := stringId }
    else t)

/-- `DataStore.updateTranslation`. -/
def updateTranslation (db : DB) (transId languageId : Int) (content : String)
    (stringId : Int) : DB :=
  { db with translations := updateTranslationRows db.translations transId languageId content stringId }

/-- `DataStore.CreateOrUpdateTranslation` (adapter revision, the function with
the `allowCreate` flag).  In the in-memory model the only error
`getTranslationId` can produce is `noRows`, so the Go condition
`err != nil && !allowCreate` collapses to the `noRows && !allowCreate` case. -/
def CreateOrUpdateTranslation (ds : DataStore)
    (domainName stringName langCode content : String) (allowCreate : Bool) :
    Option DSError × DataStore :=
  match getDomainId ds domainName with
  | (.error e, ds1) => (some e, ds1)
  | (.ok domId, ds1) =>
    let sr := if allowCreate then createOrGetString ds1 stringName domId
              else (getStringId ds1 stringName domId, ds1)
    match sr with
    | (.error e, ds2) => (some e, ds2)
    | (.ok stringId, ds2) =>
      match getLanguage ds2 langCode with
      | .error e => (some e, ds2)
      | .ok lang =>
        match lookupTranslationId ds2.db stringId lang.id domId with
        | some transId =>
          (none, { ds2 with db := updateTranslation ds2.db transId lang.id content stringId })
        | none =>
          if allowCreate then
            (none, { ds2 with db := (createTranslation ds2.db lang.id content stringId).2 })
          else (some .noRows, ds2)

/-- `DataStore.CreateLanguage`: probe with `getLanguage`; if the probe finds a
row, return its id together with `ErrAlreadyExists`; only if the probe fails
with the "does not exist" message is `INSERT INTO language (code, name)`
executed. -/
def CreateLanguage (ds : DataStore) (code name : String) : (Int × Option DSError) × DataStore :=
  match lookupLanguage ds.db code with
  | some l => ((l.id, some .alreadyExists), ds)
  | none =>
    ((ds.db.nextLanguageId, none),
     { ds with db := { ds.db with
        languages := ds.db.languages ++ [⟨ds.db.nextLanguageId, name, code⟩],
        nextLanguageId := ds.db.nextLanguageId + 1 } })

/-- The domain cache is coherent with the database: every cached pair would be
re-produced by the corresponding query.  This is an invariant of the real
system: entries are only added after a successful lookup and this revision of
the datastore never deletes domains. -/
def domainCacheOk (ds : DataStore) : Bool :=
  ds.domainCache.all (fun p => decide (lookupDomainId ds.db p.1 = some p.2))

/-- The string cache is coherent with the database (same justification as
`domainCacheOk`). -/
def stringCacheOk (ds : DataStore) : Bool :=
  ds.stringCache.all (fun p => decide (lookupStringId ds.db p.1.2 p.1.1 = some p.2))

/-- The target of `CreateOrUpdateTranslation` exists completely: the domain
row, the string row in that domain, the language row, and a translation row
for (string, language). -/
def fullyExists (db : DB) (domainName stringName langCode : String) : Bool :=
  match lookupDomainId db domainName with
  | none => false
  | some domId =>
    match lookupStringId db stringName domId with
    | none => false
    | some stringId =>
      match lookupLanguage db langCode with
      | none => false
      | some lang => (lookupTranslationId db stringId lang.id domId).isSome

/-- Behaviour of `getDomainId` under a coherent cache: it either fails with
`noRows` (leaving the store untouched) exactly when the query finds nothing,
or returns the id the query would return, touching only the cache. -/
theorem getDomainId_cases (ds : DataStore) (name : String)
    (hcache : domainCacheOk ds = true) :
    (getDomainId ds name = (.error .noRows, ds) ∧ lookupDomainId ds.db name = none) ∨
    (∃ i ds2, getDomainId ds name = (.ok i, ds2) ∧ lookupDomainId ds.db name = some i ∧
      ds2.db = ds.db) := by
  unfold getDomainId
  cases hfind : ds.domainCache.find? (fun p => decide (p.1 = name)) with
  | none =>
    cases hlk : lookupDomainId ds.db name with
    | none => exact Or.inl ⟨rfl, rfl⟩
    | some i => exact Or.inr ⟨i, _, rfl, rfl, rfl⟩
  | some p =>
    have hmem : p ∈ ds.domainCache := List.mem_of_find?_eq_some hfind
    have hpred := List.find?_some hfind
    have hname : p.1 = name := of_decide_eq_true hpred
    have hall := List.all_eq_true.mp hcache p hmem
    have hlk : lookupDomainId ds.db p.1 = some p.2 := of_decide_eq_true hall
    rw [hname] at hlk
    exact Or.inr ⟨p.2, ds, rfl, hlk, rfl⟩

/-- C1: with `allowCreate = false` and a coherent domain cache, whenever the
domain, string, language or translation row is missing,
`CreateOrUpdateTranslation` fails with a not-found error and leaves the
database (domains, strings, translations, languages) unchanged. -/
theorem createOrUpdate_noCreate_notFound (ds : DataStore)
    (dn sn lc content : String)
    (hcache : domainCacheOk ds = true)
    (hne : fullyExists ds.db dn sn lc = false) :
    (∃ e, (CreateOrUpdateTranslation ds dn sn lc content false).1 = some e ∧
      e.isNotFound = true) ∧
    (CreateOrUpdateTranslation ds dn sn lc content false).2.db = ds.db := by
  unfold CreateOrUpdateTranslation
  rcases getDomainId_cases ds dn hcache with ⟨heq, _⟩ | ⟨domId, ds1, heq, hdom, hdb⟩
  · rw [heq]
    exact ⟨⟨.noRows, rfl, rfl⟩, rfl⟩
  · rw [heq]
    unfold fullyExists at hne
    simp only [hdom] at hne
    dsimp only
    simp only [Bool.false_eq_true, if_false]
    unfold getStringId
    rw [hdb]
    cases hstr : lookupStringId ds.db sn domId with
    | none => exact ⟨⟨.noRows, rfl, rfl⟩, hdb⟩
    | some stringId =>
      simp only [hstr] at hne
      dsimp only
      unfold getLanguage
      rw [hdb]
      cases hlang : lookupLanguage ds.db lc with
      | none => exact ⟨⟨.languageNotFound lc, rfl, rfl⟩, hdb⟩
      | some lang =>
        simp only [hlang] at hne
        dsimp only
        cases htr : lookupTranslationId ds.db stringId lang.id domId with
        | none => exact ⟨⟨.noRows, rfl, rfl⟩, hdb⟩
        | some transId => simp [htr] at hne

/-- Witness for C1: in a store holding the domain and the language but not the
string, the update is refused with a not-found error and the database is
untouched. -/
theorem createOrUpdate_noCreate_notFound_witness :
    (∃ e, (CreateOrUpdateTranslation
        ⟨⟨[⟨1, "homepage"⟩], [⟨1, "English", "en"⟩], [], [], 2, 2, 1, 1⟩, [], []⟩
        "homepage" "welcome" "en" "Hi" false).1 = some e ∧ e.isNotFound = true) ∧
    (CreateOrUpdateTranslation
        ⟨⟨[⟨1, "homepage"⟩], [⟨1, "English", "en"⟩], [], [], 2, 2, 1, 1⟩, [], []⟩
        "homepage" "welcome" "en" "Hi" false).2.db =
      ⟨[⟨1, "homepage"⟩], [⟨1, "English", "en"⟩], [], [], 2, 2, 1, 1⟩ :=
  createOrUpdate_noCreate_notFound
    ⟨⟨[⟨1, "homepage"⟩], [⟨1, "English", "en"⟩], [], [], 2, 2, 1, 1⟩, [], []⟩
    "homepage" "welcome" "en" "Hi" (by decide) (by decide)

/-- C5: `CreateLanguage` detects a duplicate code by a lookup probe: if the
probe finds a row it fails with the distinct `alreadyExists` error without
inserting; starting from a table without the code, the first call succeeds,
the second fails with `alreadyExists`, and exactly one row with that code is
present afterwards. -/
theorem createLanguage_alreadyExists (ds : DataStore) (code name name2 : String) :
    (∀ l, lookupLanguage ds.db code = some l →
      CreateLanguage ds code name = ((l.id, some .alreadyExists), ds)) ∧
    (lookupLanguage ds.db code = none →
      (CreateLanguage ds code name).1.2 = none ∧
      (CreateLanguage (CreateLanguage ds code name).2 code name2).1.2 =
        some .alreadyExists ∧
      ((CreateLanguage (CreateLanguage ds code name).2 code name2).2.db.languages.filter
        (fun l => decide (l.code = code))).length = 1) := by
  constructor
  · intro l hl
    unfold CreateLanguage
    rw [hl]
  · intro hnone
    have hnone' : ds.db.languages.find? (fun l => decide (l.code = code)) = none := hnone
    have hcount : (ds.db.languages.filter (fun l => decide (l.code = code))).length = 0 := by
      rw [List.length_eq_zero, List.filter_eq_nil_iff]
      intro l hmem hc
      exact (List.find?_eq_none.mp hnone' l hmem) hc
    have hfresh : lookupLanguage { ds.db with
        languages := ds.db.languages ++ [⟨ds.db.nextLanguageId, name, code⟩],
        nextLanguageId := ds.db.nextLanguageId + 1 } code =
        some (Language.mk ds.db.nextLanguageId name code) := by
      unfold lookupLanguage
      rw [List.find?_append, hnone']
      simp
    unfold CreateLanguage
    rw [hnone]
    dsimp only
    rw [hfresh]
    refine ⟨rfl, rfl, ?_⟩
    dsimp only
    simp only [List.filter_append]
    rw [List.length_append, hcount]
    simp

/-- Witness for C5: a concrete second registration of code "en" fails with
`alreadyExists` and the table keeps a single "en" row. -/
theorem createLanguage_alreadyExists_witness :
    ((CreateLanguage ⟨⟨[], [], [], [], 1, 1, 1, 1⟩, [], []⟩ "en" "English").1.2 = none ∧
      (CreateLanguage (CreateLanguage ⟨⟨[], [], [], [], 1, 1, 1, 1⟩, [], []⟩ "en" "English").2
        "en" "English again").1.2 = some .alreadyExists ∧
      ((CreateLanguage (CreateLanguage ⟨⟨[], [], [], [], 1, 1, 1, 1⟩, [], []⟩ "en" "English").2
        "en" "English again").2.db.languages.filter
          (fun l => decide (l.code = "en"))).length = 1) :=
  (createLanguage_alreadyExists ⟨⟨[], [], [], [], 1, 1, 1, 1⟩, [], []⟩
    "en" "English" "English again").2 (by decide)

/-- All ids in the database are below the corresponding `next*Id` counter, and
translations reference only already-allocated string ids.  This is the
AUTOINCREMENT freshness invariant of the backing database. -/
def freshIds (db : DB) : Bool :=
  db.domains.all (fun d => decide (d.id < db.nextDomainId)) &&
  db.languages.all (fun l => decide (l.id < db.nextLanguageId)) &&
  db.strings.all (fun s => decide (s.id < db.nextStringId)) &&
  db.translations.all (fun t =>
    decide (t.id < db.nextTranslationId ∧ t.stringId < db.nextStringId))

/-- Unpacked form of `freshIds` for strings and translations. -/
theorem freshIds_spec {db : DB} (h : freshIds db = true) :
    (∀ s ∈ db.strings, s.id < db.nextStringId) ∧
    (∀ t ∈ db.translations, t.id < db.nextTranslationId ∧ t.stringId < db.nextStringId) := by
  unfold freshIds at h
  simp only [Bool.and_eq_true, List.all_eq_true, decide_eq_true_eq] at h
  exact ⟨h.1.2, h.2⟩

/-- No existing string row carries the id about to be allocated. -/
theorem find?_newString (db : DB) (h : freshIds db = true) :
    db.strings.find? (fun s => decide (s.id = db.nextStringId)) = none := by
  rw [List.find?_eq_none]
  intro s hs
  simp only [decide_eq_true_eq]
  have := (freshIds_spec h).1 s hs
  omega

/-- No existing translation row references the string id about to be
allocated. -/
theorem find?_newStringTranslation (db : DB) (h : freshIds db = true) (lid : Int) :
    db.translations.find?
      (fun t => decide (t.stringId = db.nextStringId ∧ t.languageId = lid)) = none := by
  rw [List.find?_eq_none]
  intro t ht
  simp only [decide_eq_true_eq, not_and]
  intro h1 _
  have := (freshIds_spec h).2 t ht
  omega

/-- `createString` does not affect language lookups. -/
theorem lookupLanguage_createString (db : DB) (sn : String) (domId : Int) (lc : String) :
    lookupLanguage (createString db sn domId).2 lc = lookupLanguage db lc := rfl

/-- The id handed back by `createString` is the allocated counter value. -/
theorem createString_fst (db : DB) (sn : String) (domId : Int) :
    (createString db sn domId).1 = db.nextStringId := rfl

/-- A freshly created string has no translation row yet. -/
theorem lookupTranslationId_freshString (db : DB) (h : freshIds db = true)
    (sn : String) (domId lid : Int) :
    lookupTranslationId (createString db sn domId).2 db.nextStringId lid domId = none := by
  unfold lookupTranslationId createString
  dsimp only
  rw [List.find?_append, find?_newString db h]
  simp [List.find?]
  intro x hx h1
  have := (freshIds_spec h).2 x hx
  omega

/-- C2: with `allowCreate = true` (under the cache-coherence and id-freshness
invariants) `CreateOrUpdateTranslation` never touches the domain table; a
missing domain fails the call; when the domain and language exist, a missing
string is created together with a translation row for it, and for an existing
string an existing (string, language) translation is updated in place by its
translation id while a missing one is inserted as a new row. -/
theorem createOrUpdate_allowCreate_behaviour (ds : DataStore)
    (dn sn lc content : String) (er : Option DSError) (ds' : DataStore)
    (hcache : domainCacheOk ds = true) (hfresh : freshIds ds.db = true)
    (hrun : CreateOrUpdateTranslation ds dn sn lc content true = (er, ds')) :
    ds'.db.domains = ds.db.domains ∧ ds'.db.nextDomainId = ds.db.nextDomainId ∧
    (lookupDomainId ds.db dn = none → er = some .noRows ∧ ds'.db = ds.db) ∧
    (∀ domId lang, lookupDomainId ds.db dn = some domId →
      lookupLanguage ds.db lc = some lang →
      (lookupStringId ds.db sn domId = none →
        er = none ∧
        ds'.db.strings = ds.db.strings ++ [⟨ds.db.nextStringId, sn, domId⟩] ∧
        ds'.db.translations = ds.db.translations ++
          [⟨ds.db.nextTranslationId, lang.id, content, ds.db.nextStringId⟩]) ∧
      (∀ stringId, lookupStringId ds.db sn domId = some stringId →
        ds'.db.strings = ds.db.strings ∧
        (lookupTranslationId ds.db stringId lang.id domId = none →
          er = none ∧
          ds'.db.translations = ds.db.translations ++
            [⟨ds.db.nextTranslationId, lang.id, content, stringId⟩]) ∧
        (∀ transId, lookupTranslationId ds.db stringId lang.id domId = some transId →
          er = none ∧
          ds'.db.translations =
            updateTranslationRows ds.db.translations transId lang.id content stringId))) := by
  unfold CreateOrUpdateTranslation at hrun
  rcases getDomainId_cases ds dn hcache with ⟨heq, hdomNone⟩ | ⟨domId, ds1, heq, hdom, hdb⟩
  · rw [heq] at hrun
    dsimp only at hrun
    injection hrun with h1 h2
    subst h1; subst h2
    refine ⟨rfl, rfl, fun _ => ⟨rfl, rfl⟩, ?_⟩
    intro domId lang hd
    rw [hdomNone] at hd
    exact absurd hd (by simp)
  · rw [heq] at hrun
    dsimp only at hrun
    simp only [reduceIte] at hrun
    unfold createOrGetString at hrun
    rw [hdb] at hrun
    cases hstr : lookupStringId ds.db sn domId with
    | some stringId =>
      rw [hstr] at hrun
      dsimp only at hrun
      unfold getLanguage at hrun
      rw [hdb] at hrun
      cases hlang : lookupLanguage ds.db lc with
      | none =>
        rw [hlang] at hrun
        dsimp only at hrun
        injection hrun with h1 h2
        subst h1; subst h2
        refine ⟨congrArg DB.domains hdb, congrArg DB.nextDomainId hdb, ?_, ?_⟩
        · intro hd; rw [hdom] at hd; exact absurd hd (by simp)
        · intro domId' lang' _ hl
          exact absurd hl (by simp)
      | some lang =>
        rw [hlang] at hrun
        dsimp only at hrun
        cases htr : lookupTranslationId ds.db stringId lang.id domId with
        | some transId =>
          rw [htr] at hrun
          dsimp only at hrun
          injection hrun with h1 h2
          subst h1; subst h2
          refine ⟨rfl, rfl, ?_, ?_⟩
          · intro hd; rw [hdom] at hd; exact absurd hd (by simp)
          · intro domId' lang' hd hl
            rw [hdom] at hd
            injection hd with hd; injection hl with hl
            subst hd; subst hl
            refine ⟨?_, ?_⟩
            · intro hs; rw [hstr] at hs; exact absurd hs (by simp)
            · intro stringId' hs
              rw [hstr] at hs; injection hs with hs; subst hs
              refine ⟨rfl, ?_, ?_⟩
              · intro ht; rw [htr] at ht; exact absurd ht (by simp)
              · intro transId' ht
                rw [htr] at ht; injection ht with ht; subst ht
                exact ⟨rfl, rfl⟩
        | none =>
          rw [htr] at hrun
          dsimp only at hrun
          injection hrun with h1 h2
          subst h1; subst h2
          refine ⟨rfl, rfl, ?_, ?_⟩
          · intro hd; rw [hdom] at hd; exact absurd hd (by simp)
          · intro domId' lang' hd hl
            rw [hdom] at hd
            injection hd with hd; injection hl with hl
            subst hd; subst hl
            refine ⟨?_, ?_⟩
            · intro hs; rw [hstr] at hs; exact absurd hs (by simp)
            · intro stringId' hs
              rw [hstr] at hs; injection hs with hs; subst hs
              refine ⟨rfl, ?_, ?_⟩
              · intro _; exact ⟨rfl, rfl⟩
              · intro transId' ht
                rw [htr] at ht; exact absurd ht (by simp)
    | none =>
      rw [hstr] at hrun
      dsimp only at hrun
      unfold getLanguage at hrun
      dsimp only at hrun
      rw [lookupLanguage_createString] at hrun
      cases hlang : lookupLanguage ds.db lc with
      | none =>
        rw [hlang] at hrun
        dsimp only at hrun
        injection hrun with h1 h2
        subst h1; subst h2
        refine ⟨rfl, rfl, ?_, ?_⟩
        · intro hd; rw [hdom] at hd; exact absurd hd (by simp)
        · intro domId' lang' _ hl
          exact absurd hl (by simp)
      | some lang =>
        rw [hlang] at hrun
        dsimp only at hrun
        rw [createString_fst] at hrun
        rw [lookupTranslationId_freshString ds.db hfresh sn domId lang.id] at hrun
        dsimp only at hrun
        injection hrun with h1 h2
        subst h1; subst h2
        refine ⟨rfl, rfl, ?_, ?_⟩
        · intro hd; rw [hdom] at hd; exact absurd hd (by simp)
        · intro domId' lang' hd hl
          rw [hdom] at hd
          injection hd with hd; injection hl with hl
          subst hd; subst hl
          refine ⟨?_, ?_⟩
          · intro _
            exact ⟨rfl, rfl, rfl⟩
          · intro stringId' hs
            rw [hstr] at hs
            exact absurd hs (by simp)

/-- Witness for C2: on a store holding domain "homepage" and language "en"
but no strings, the call creates the string and its translation and leaves the
domain table alone. -/
theorem createOrUpdate_allowCreate_behaviour_witness :
    (CreateOrUpdateTranslation
      ⟨⟨[⟨1, "homepage"⟩], [⟨1, "English", "en"⟩], [], [], 2, 2, 1, 1⟩, [], []⟩
      "homepage" "welcome" "en" "Welcome!" true).2.db.domains = [⟨1, "homepage"⟩] ∧
    (CreateOrUpdateTranslation
      ⟨⟨[⟨1, "homepage"⟩], [⟨1, "English", "en"⟩], [], [], 2, 2, 1, 1⟩, [], []⟩
      "homepage" "welcome" "en" "Welcome!" true).1 = none ∧
    (CreateOrUpdateTranslation
      ⟨⟨[⟨1, "homepage"⟩], [⟨1, "English", "en"⟩], [], [], 2, 2, 1, 1⟩, [], []⟩
      "homepage" "welcome" "en" "Welcome!" true).2.db.strings = [⟨1, "welcome", 1⟩] ∧
    (CreateOrUpdateTranslation
      ⟨⟨[⟨1, "homepage"⟩], [⟨1, "English", "en"⟩], [], [], 2, 2, 1, 1⟩, [], []⟩
      "homepage" "welcome" "en" "Welcome!" true).2.db.translations =
        [⟨1, 1, "Welcome!", 1⟩] := by
  have h := createOrUpdate_allowCreate_behaviour
    ⟨⟨[⟨1, "homepage"⟩], [⟨1, "English", "en"⟩], [], [], 2, 2, 1, 1⟩, [], []⟩
    "homepage" "welcome" "en" "Welcome!"
    (CreateOrUpdateTranslation
      ⟨⟨[⟨1, "homepage"⟩], [⟨1, "English", "en"⟩], [], [], 2, 2, 1, 1⟩, [], []⟩
      "homepage" "welcome" "en" "Welcome!" true).1
    (CreateOrUpdateTranslation
      ⟨⟨[⟨1, "homepage"⟩], [⟨1, "English", "en"⟩], [], [], 2, 2, 1, 1⟩, [], []⟩
      "homepage" "welcome" "en" "Welcome!" true).2
    (by decide) (by decide) rfl
  have hmain := (h.2.2.2 1 ⟨1, "English", "en"⟩ (by decide) (by decide)).1 (by decide)
  exact ⟨h.1.trans (by decide), hmain.1, hmain.2.1.trans (by decide),
    hmain.2.2.trans (by decide)⟩

/-- C10: when the probed code is already registered, `CreateLanguage` returns
the existing row's id alongside the `alreadyExists` error. -/
theorem createLanguage_returns_existing_id (ds : DataStore) (code name : String)
    (l : Language) (hl : lookupLanguage ds.db code = some l) :
    (CreateLanguage ds code name).1.1 = l.id ∧
    (CreateLanguage ds code name).1.2 = some .alreadyExists := by
  unfold CreateLanguage
  rw [hl]
  exact ⟨rfl, rfl⟩

/-- Witness for C10: the conflicting call returns the id (7) of the row that
already holds the code. -/
theorem createLanguage_returns_existing_id_witness :
    (CreateLanguage ⟨⟨[], [⟨7, "German", "de"⟩], [], [], 1, 8, 1, 1⟩, [], []⟩
      "de" "Deutsch").1.1 = 7 ∧
    (CreateLanguage ⟨⟨[], [⟨7, "German", "de"⟩], [], [], 1, 8, 1, 1⟩, [], []⟩
      "de" "Deutsch").1.2 = some .alreadyExists :=
  createLanguage_returns_existing_id
    ⟨⟨[], [⟨7, "German", "de"⟩], [], [], 1, 8, 1, 1⟩, [], []⟩ "de" "Deutsch"
    ⟨7, "German", "de"⟩ (by decide)

/-- A trans-unit of an XLIFF document (`XliffString`): the language tag
attached after decoding (nil/absent before), `resname`, `source` and `target`.
The SHA-1 `id` attribute and the fixed header metadata carry no decoding or
assembly logic and are not modelled. -/
structure XliffUnit where
  language : Option Language
  resname : String
  source : String
  target : String
deriving Repr, DecidableEq

/-- The fields of an `Xliff` document that the codec logic reads and writes:
domain name, `source-language` and `target-language` attributes, and the
trans-units. -/
structure XliffDoc where
  name : String
  sourceLang : String
  targetLang : String
  units : List XliffUnit
deriving Repr, DecidableEq

/-- Errors of the XLIFF decoder: an XML unmarshalling failure, the
"Domain name or language missing from filename" format error, or the
target-language/filename mismatch error. -/
inductive XliffError where
  | xml (msg : String)
  | format (filename : String)
  | langMismatch (found expected filename : String)
deriving Repr, DecidableEq

/-- Go's `strings.Split` for a one-character separator. -/
def stringsSplitChars (sep : Char) : List Char → List (List Char)
  | [] => [[]]
  | c :: cs =>
    let r := stringsSplitChars sep cs
    if c = sep then [] :: r
    else
      match r with
      | [] => [[c]]
      | w :: ws => (c :: w) :: ws

/-- `strings.Split(filename, ".")`. -/
def splitOnDots (filename : String) : List String :=
  (stringsSplitChars '.' filename.toList).map (fun cs => String.mk cs)

/-- `infoFromFilename`: requires exactly three dot-separated segments and
returns (domain name, language code). -/
def infoFromFilename (filename : String) : Except XliffError (String × String) :=
  if (splitOnDots filename).length ≠ 3 then .error (.format filename)
  else .ok ((splitOnDots filename).getD 0 "", (splitOnDots filename).getD 1 "")

/-- `xliff.NewFromFile`, applied to the base name of the path and to the
outcome of `xml.Unmarshal` on the file's bytes (reading the file and running
the XML parser happen first in the source; their result is this function's
second argument).  On success every trans-unit is tagged with the language
whose code was derived from the filename. -/
def NewFromFile (baseName : String) (parsed : Except String XliffDoc) :
    Except XliffError XliffDoc :=
  match parsed with
  | .error msg => .error (.xml msg)
  | .ok x =>
    match infoFromFilename baseName with
    | .error e => .error e
    | .ok (name, expectLang) =>
      if x.targetLang ≠ expectLang then
        .error (.langMismatch x.targetLang expectLang baseName)
      else
        .ok { x with
          name := name,
          units := x.units.map (fun u => { u with language := some ⟨0, "", x.targetLang⟩ }) }

/-- C4 counterexample: for a base name with only two dot-separated segments
and unparseable file contents, decoding reports the XML error, not the
filename format error — the XML parse is attempted first, contradicting the
claim that the format failure occurs before any attempt to parse XML. -/
theorem newFromFile_counterexample :
    NewFromFile "a.xliff" (.error "invalid xml") = .error (.xml "invalid xml") ∧
    NewFromFile "a.xliff" (.error "invalid xml") ≠ .error (.format "a.xliff") := by
  refine ⟨rfl, ?_⟩
  intro h
  exact XliffError.noConfusion (Except.error.inj h)

/-- C4 amended: a path whose base name does not consist of exactly three
dot-separated segments always fails to decode, but the format error is
reported only after the contents have been successfully parsed as XML; if the
XML itself is invalid the XML error is reported instead. -/
theorem newFromFile_bad_filename_fails (baseName : String)
    (parsed : Except String XliffDoc)
    (hbad : (splitOnDots baseName).length ≠ 3) :
    (∃ e, NewFromFile baseName parsed = .error e) ∧
    (∀ x, parsed = .ok x → NewFromFile baseName parsed = .error (.format baseName)) := by
  cases parsed with
  | error msg =>
    refine ⟨⟨.xml msg, rfl⟩, ?_⟩
    intro x hx
    cases hx
  | ok x =>
    unfold NewFromFile infoFromFilename
    rw [if_pos hbad]
    exact ⟨⟨.format baseName, rfl⟩, fun _ _ => rfl⟩

/-- Witness for the C4 amended claim: "a.xliff" (two segments) with valid XML
fails with the filename format error. -/
theorem newFromFile_bad_filename_fails_witness :
    NewFromFile "a.xliff" (.ok ⟨"", "en", "de", []⟩) = .error (.format "a.xliff") :=
  (newFromFile_bad_filename_fails "a.xliff" (.ok ⟨"", "en", "de", []⟩)
    (by decide)).2 ⟨"", "en", "de", []⟩ rfl

/-- `trans.String` as the codec and the import path see it: a name plus the
per-language contents (`Translations() map[Language]Translation`, modelled as
an association list). -/
structure TransString where
  name : String
  translations : List (Language × String)
deriving Repr, DecidableEq

/-- `trans.Domain`: a name plus its strings. -/
structure TransDomain where
  name : String
  strings : List TransString
deriving Repr, DecidableEq

/-- `xliff.getTranslation`: map lookup keyed by the full `Language` value. -/
def getTranslation (s : TransString) (l : Language) : Option String :=
  (s.translations.find? (fun p => decide (p.1 = l))).map (fun p => p.2)

/-- The "source" text used for every trans-unit of a string: the
source-language translation content when present, else the string's name. -/
def sourceTextOf (s : TransString) (sourceLang : Language) : String :=
  match getTranslation s sourceLang with
  | some c => c
  | none => s.name

/-- One step of `xliff.Export`'s inner loop: get-or-create the per-language
document (`xliff.New` seeds name and language attributes) and append the
trans-unit to it.  The `xliffs` Go map is modelled as an association list in
insertion order. -/
def appendUnit (m : List (Language × XliffDoc)) (domName : String)
    (sourceLang : Language) (l : Language) (u : XliffUnit) :
    List (Language × XliffDoc) :=
  match m with
  | [] => [(l, ⟨domName, sourceLang.code, l.code, [u]⟩)]
  | (k, x) :: rest =>
    if k = l then (k, { x with units := x.units ++ [u] }) :: rest
    else (k, x) :: appendUnit rest domName sourceLang l u

/-- `xliff.Export`'s outer-loop body for one string: one trans-unit per
translation, all with the same source text. -/
def exportString (domName : String) (sourceLang : Language)
    (m : List (Language × XliffDoc)) (s : TransString) :
    List (Language × XliffDoc) :=
  s.translations.foldl
    (fun m p =>
      appendUnit m domName sourceLang p.1
        ⟨some p.1, s.name, sourceTextOf s sourceLang, p.2⟩) m

/-- `xliff.Export`: the per-language documents built from all strings. -/
def exportXliffs (dom : TransDomain) (sourceLang : Language) :
    List (Language × XliffDoc) :=
  dom.strings.foldl (exportString dom.name sourceLang) []

/-- The files written by `xliff.Export`: one per language, named
`{domainName}.{targetLanguageCode}.xliff`. -/
def exportFiles (dom : TransDomain) (sourceLang : Language) :
    List (String × XliffDoc) :=
  (exportXliffs dom sourceLang).map
    (fun p => (p.2.name ++ "." ++ p.2.targetLang ++ ".xliff", p.2))

/-- Any unit present after `appendUnit` was already present or is the one
appended. -/
theorem appendUnit_mem {m : List (Language × XliffDoc)} {domName : String}
    {sourceLang l : Language} {u : XliffUnit}
    (q : Language × XliffDoc) (hq : q ∈ appendUnit m domName sourceLang l u)
    (v : XliffUnit) (hv : v ∈ q.2.units) :
    (∃ p ∈ m, v ∈ p.2.units) ∨ v = u := by
  induction m with
  | nil =>
    simp only [appendUnit, List.mem_singleton] at hq
    subst hq
    simp only [List.mem_singleton] at hv
    exact Or.inr hv
  | cons hd tl ih =>
    rcases hd with ⟨k, x⟩
    by_cases hk : k = l
    · rw [appendUnit, if_pos hk] at hq
      rcases List.mem_cons.mp hq with hq | hq
      · subst hq
        rcases List.mem_append.mp hv with hv | hv
        · exact Or.inl ⟨(k, x), List.mem_cons_self _ _, hv⟩
        · exact Or.inr (List.mem_singleton.mp hv)
      · exact Or.inl ⟨q, List.mem_cons_of_mem _ hq, hv⟩
    · rw [appendUnit, if_neg hk] at hq
      rcases List.mem_cons.mp hq with hq | hq
      · subst hq
        exact Or.inl ⟨(k, x), List.mem_cons_self _ _, hv⟩
      · rcases ih hq with ⟨p, hp, hvp⟩ | hvu
        · exact Or.inl ⟨p, List.mem_cons_of_mem _ hp, hvp⟩
        · exact Or.inr hvu

/-- Every unit produced while exporting one string either predates the call
or carries that string's name and source text. -/
theorem exportString_mem {domName : String} {sourceLang : Language}
    (s : TransString) (ts : List (Language × String))
    (m : List (Language × XliffDoc)) (q : Language × XliffDoc)
    (hq : q ∈ ts.foldl
      (fun m p => appendUnit m domName sourceLang p.1
        ⟨some p.1, s.name, sourceTextOf s sourceLang, p.2⟩) m)
    (v : XliffUnit) (hv : v ∈ q.2.units) :
    (∃ p ∈ m, v ∈ p.2.units) ∨
    (v.resname = s.name ∧ v.source = sourceTextOf s sourceLang) := by
  induction ts generalizing m with
  | nil => exact Or.inl ⟨q, hq, hv⟩
  | cons hd tl ih =>
    rw [List.foldl_cons] at hq
    rcases ih _ hq with ⟨p, hp, hvp⟩ | hgood
    · rcases appendUnit_mem p hp v hvp with ⟨p2, hp2, hvp2⟩ | hvu
      · exact Or.inl ⟨p2, hp2, hvp2⟩
      · subst hvu
        exact Or.inr ⟨rfl, rfl⟩
    · exact Or.inr hgood

/-- Exporting a list of strings only adds units carrying the name and source
text of one of those strings. -/
theorem exportStrings_mem {domName : String} {sourceLang : Language}
    (strs : List TransString) (m : List (Language × XliffDoc))
    (hm : ∀ p ∈ m, ∀ u ∈ (p : Language × XliffDoc).2.units,
      ∃ s ∈ strs, u.resname = s.name ∧ u.source = sourceTextOf s sourceLang)
    (todo : List TransString) (htodo : ∀ s ∈ todo, s ∈ strs)
    (q : Language × XliffDoc)
    (hq : q ∈ todo.foldl (exportString domName sourceLang) m)
    (v : XliffUnit) (hv : v ∈ q.2.units) :
    ∃ s ∈ strs, v.resname = s.name ∧ v.source = sourceTextOf s sourceLang := by
  induction todo generalizing m with
  | nil => exact hm q hq v hv
  | cons hd tl ih =>
    rw [List.foldl_cons] at hq
    refine ih _ ?_ (fun s hs => htodo s (List.mem_cons_of_mem _ hs)) hq
    intro p hp u hu
    rcases exportString_mem hd hd.translations m p hp u hu with ⟨p2, hp2, hup2⟩ | hgood
    · exact hm p2 hp2 u hup2
    · exact ⟨hd, htodo hd (List.mem_cons_self _ _), hgood⟩

/-- The English language value as it appears in assembled full domains (name
cleared, as `ExportDomain` does before the export). -/
def enLang : Language := ⟨1, "", "en"⟩

/-- The German language value of the C3 scenario. -/
def deLang : Language := ⟨2, "", "de"⟩

/-- The C3 scenario domain: `homepage` with one string `welcome` translated
into English and German. -/
def homepageDomain : TransDomain :=
  ⟨"homepage", [⟨"welcome", [(enLang, "Welcome!"), (deLang, "Willkommen!")]⟩]⟩

/-- C3: exporting the scenario domain with source language English writes
exactly `homepage.en.xliff` (trans-unit source "Welcome!", target "Welcome!")
and `homepage.de.xliff` (source "Welcome!", target "Willkommen!"); and in
general every exported trans-unit's source field is its string's
source-language content when that translation exists, else the string's own
name. -/
theorem export_scenario_and_source_rule :
    (exportFiles homepageDomain enLang).length = 2 ∧
    ("homepage.en.xliff",
      (⟨"homepage", "en", "en",
        [⟨some enLang, "welcome", "Welcome!", "Welcome!"⟩]⟩ : XliffDoc)) ∈
      exportFiles homepageDomain enLang ∧
    ("homepage.de.xliff",
      (⟨"homepage", "en", "de",
        [⟨some deLang, "welcome", "Welcome!", "Willkommen!"⟩]⟩ : XliffDoc)) ∈
      exportFiles homepageDomain enLang ∧
    ∀ (dom : TransDomain) (sourceLang : Language) (p : Language × XliffDoc),
      p ∈ exportXliffs dom sourceLang → ∀ u ∈ p.2.units,
        ∃ s ∈ dom.strings, u.resname = s.name ∧ u.source = sourceTextOf s sourceLang := by
  refine ⟨by decide, by decide, by decide, ?_⟩
  intro dom sourceLang p hp u hu
  exact exportStrings_mem dom.strings [] (by intro p hp; cases hp)
    dom.strings (fun s hs => hs) p hp u hu

/-- Witness for C3's general source-field rule, read back off the scenario:
the unit of the German file indeed carries the English content as source. -/
theorem export_scenario_and_source_rule_witness :
    ∃ s ∈ homepageDomain.strings,
      (XliffUnit.resname ⟨some deLang, "welcome", "Welcome!", "Willkommen!"⟩) = s.name ∧
      (XliffUnit.source ⟨some deLang, "welcome", "Welcome!", "Willkommen!"⟩) =
        sourceTextOf s enLang :=
  export_scenario_and_source_rule.2.2.2 homepageDomain enLang
    (deLang, ⟨"homepage", "en", "de",
      [⟨some deLang, "welcome", "Welcome!", "Willkommen!"⟩]⟩)
    (by decide) ⟨some deLang, "welcome", "Welcome!", "Willkommen!"⟩ (by decide)

/-- State of the migration engine: the rows of the one-column
`schema_migrations` table plus a log of the 1-based target versions of the
"up" scripts that have been executed (each `db.Exec` of a migration script
appends its target version here, so an unchanged log means no script ran). -/
structure MigState where
  schemaMigrations : List Int
  executed : List Nat
deriving Repr, DecidableEq

/-- The only migration-engine error reachable in the in-memory model: the
"too many rows in schema_migrations table" corruption signal. -/
inductive MigError where
  | tooManyRows
deriving Repr, DecidableEq

/-- `Sqlite3Adapter.EnsureVersionTableExists`: `CREATE TABLE IF NOT EXISTS` is
a no-op on existing rows; a zero row count inserts version 0; more than one
row is the corruption error. -/
def ensureVersionTableExists (st : MigState) : Except MigError MigState :=
  if st.schemaMigrations.length = 0 then
    .ok { st with schemaMigrations := st.schemaMigrations ++ [0] }
  else if st.schemaMigrations.length > 1 then .error .tooManyRows
  else .ok st

/-- `Sqlite3Adapter.version`: first row of `SELECT version FROM
schema_migrations`, with `sql.ErrNoRows` mapped to 0. -/
def versionOf (st : MigState) : Int :=
  match st.schemaMigrations with
  | [] => 0
  | v :: _ => v

/-- `Sqlite3Adapter.updateVersion`:
`UPDATE schema_migrations SET version = ?` (touches every row). -/
def updateVersion (v : Int) (st : MigState) : MigState :=
  { st with schemaMigrations := st.schemaMigrations.map (fun _ => v) }

/-- The sqlite3 adapter ships two "up" migration scripts. -/
def upScriptCount : Nat := 2

/-- One iteration of `Sqlite3Adapter.MigrateUp`'s loop, for start version
`startVer` and script index `i` (target version `i + 1`): skip when the
target version is at or below the start version, else execute the script
(logging it) and persist the new version. -/
def migStep (startVer : Int) (acc : Int × MigState) (i : Nat) : Int × MigState :=
  if (i : Int) + 1 ≤ startVer then ((i : Int) + 1, acc.2)
  else
    ((i : Int) + 1,
     updateVersion ((i : Int) + 1) { acc.2 with executed := acc.2.executed ++ [i + 1] })

/-- `Sqlite3Adapter.MigrateUp`: read the start version once, then run the
loop over all scripts.  In-memory script execution cannot fail, so the loop
always completes. -/
def sqlite3MigrateUp (st : MigState) : Int × MigState :=
  (List.range upScriptCount).foldl (migStep (versionOf st)) (0, st)

/-- `DataStore.MigrateUp`: ensure the version table exists, then run the
adapter migration. -/
def MigrateUp (st : MigState) : Except MigError (Int × MigState) :=
  match ensureVersionTableExists st with
  | .error e => .error e
  | .ok st1 => .ok (sqlite3MigrateUp st1)

/-- A skipped migration step only reports its version. -/
theorem migStep_skip (v : Int) (acc : Int × MigState) (i : Nat)
    (h : (i : Int) + 1 ≤ v) : migStep v acc i = ((i : Int) + 1, acc.2) := by
  unfold migStep
  rw [if_pos h]

/-- An executed migration step logs the script and persists the version. -/
theorem migStep_exec (v : Int) (acc : Int × MigState) (i : Nat)
    (h : ¬ ((i : Int) + 1 ≤ v)) :
    migStep v acc i = ((i : Int) + 1,
      updateVersion ((i : Int) + 1) { acc.2 with executed := acc.2.executed ++ [i + 1] }) := by
  unfold migStep
  rw [if_neg h]

/-- Once the persisted version is at least 2, the migration loop is a
fixpoint: it returns version 2 and the state unchanged (no scripts run). -/
theorem sqlite3MigrateUp_stable (st : MigState) (h : 2 ≤ versionOf st) :
    sqlite3MigrateUp st = (2, st) := by
  unfold sqlite3MigrateUp
  rw [show List.range upScriptCount = [0, 1] from rfl]
  rw [List.foldl_cons, List.foldl_cons, List.foldl_nil]
  rw [migStep_skip _ _ 0 (by push_cast; omega), migStep_skip _ _ 1 (by push_cast; omega)]
  norm_num

/-- Running the migration loop from any single-row version table returns
version 2 and leaves a single-row table whose version is at least 2. -/
theorem sqlite3MigrateUp_single (v0 : Int) (ex : List Nat) :
    ∃ st2 : MigState, sqlite3MigrateUp ⟨[v0], ex⟩ = (2, st2) ∧
      ∃ v1, st2.schemaMigrations = [v1] ∧ 2 ≤ v1 := by
  have hv : versionOf ⟨[v0], ex⟩ = v0 := rfl
  unfold sqlite3MigrateUp
  rw [show List.range upScriptCount = [0, 1] from rfl]
  rw [List.foldl_cons, List.foldl_cons, List.foldl_nil, hv]
  by_cases h2 : (2 : Int) ≤ v0
  · rw [migStep_skip _ _ 0 (by push_cast; omega), migStep_skip _ _ 1 (by push_cast; omega)]
    refine ⟨⟨[v0], ex⟩, ?_, v0, rfl, by omega⟩
    norm_num
  · by_cases h1 : (1 : Int) ≤ v0
    · rw [migStep_skip _ _ 0 (by push_cast; omega), migStep_exec _ _ 1 (by push_cast; omega)]
      exact ⟨⟨[((1 : Nat) : Int) + 1], ex ++ [2]⟩, rfl, ((1 : Nat) : Int) + 1, rfl, by norm_num⟩
    · rw [migStep_exec _ _ 0 (by push_cast; omega), migStep_exec _ _ 1 (by push_cast; omega)]
      exact ⟨⟨[((1 : Nat) : Int) + 1], (ex ++ [1]) ++ [2]⟩, rfl, ((1 : Nat) : Int) + 1, rfl,
        by norm_num⟩

/-- C6: if `MigrateUp` succeeds returning version `v`, an immediate second run
returns `.ok (v, st')` with the state unchanged — in particular the
executed-script log is unchanged, so no migration script ran — and no
error. -/
theorem migrateUp_idempotent (st : MigState) (v : Int) (st' : MigState)
    (h : MigrateUp st = .ok (v, st')) :
    MigrateUp st' = .ok (v, st') := by
  rcases st with ⟨rows, ex⟩
  cases rows with
  | nil =>
    unfold MigrateUp at h
    rw [show ensureVersionTableExists ⟨[], ex⟩ = .ok ⟨[0], ex⟩ from rfl] at h
    dsimp only at h
    rcases sqlite3MigrateUp_single 0 ex with ⟨st2, heq2, v1, hrows2, hv1⟩
    rw [heq2] at h
    injection h with h
    injection h with hv hst
    subst hv; subst hst
    have hver : versionOf st2 = v1 := by
      unfold versionOf; rw [hrows2]
    have hens : ensureVersionTableExists st2 = .ok st2 := by
      unfold ensureVersionTableExists
      rw [hrows2]
      simp
    unfold MigrateUp
    rw [hens]
    dsimp only
    rw [sqlite3MigrateUp_stable st2 (by omega)]
  | cons a tail =>
    cases tail with
    | nil =>
      unfold MigrateUp at h
      have hens1 : ensureVersionTableExists ⟨[a], ex⟩ = .ok ⟨[a], ex⟩ := by
        unfold ensureVersionTableExists
        simp
      rw [hens1] at h
      dsimp only at h
      rcases sqlite3MigrateUp_single a ex with ⟨st2, heq2, v1, hrows2, hv1⟩
      rw [heq2] at h
      injection h with h
      injection h with hv hst
      subst hv; subst hst
      have hver : versionOf st2 = v1 := by
        unfold versionOf; rw [hrows2]
      have hens : ensureVersionTableExists st2 = .ok st2 := by
        unfold ensureVersionTableExists
        rw [hrows2]
        simp
      unfold MigrateUp
      rw [hens]
      dsimp only
      rw [sqlite3MigrateUp_stable st2 (by omega)]
    | cons b rest =>
      unfold MigrateUp at h
      have hens2 : ensureVersionTableExists ⟨a :: b :: rest, ex⟩ = .error .tooManyRows := by
        unfold ensureVersionTableExists
        rw [if_neg (by simp), if_pos (by simp_arith)]
      rw [hens2] at h
      exact Except.noConfusion h

/-- Witness for C6: from an empty database the first run migrates to version
2 executing both scripts; the second run returns the same pair untouched. -/
theorem migrateUp_idempotent_witness :
    MigrateUp ⟨[2], [1, 2]⟩ = .ok (2, ⟨[2], [1, 2]⟩) :=
  migrateUp_idempotent ⟨[], []⟩ 2 ⟨[2], [1, 2]⟩ (by rfl)

/-- One row of the `GetSingleDomainQuery` join result (string ⋈ translation ⋈
language, filtered to one domain). -/
structure JoinRow where
  stringId : Int
  name : String
  languageId : Int
  code : String
  translationId : Int
  content : String
deriving Repr, DecidableEq

/-- Assembled translation value (`datastore.Translation`). -/
structure TranslationOut where
  id : Int
  content : String
deriving Repr, DecidableEq

/-- Go map assignment `m[k] = v` on the translations map (keyed by the full
`trans.Language` value): replace the existing binding or append a new one. -/
def mapSet (m : List (Language × TranslationOut)) (k : Language) (v : TranslationOut) :
    List (Language × TranslationOut) :=
  match m with
  | [] => [(k, v)]
  | (k2, v2) :: rest => if k2 = k then (k, v) :: rest else (k2, v2) :: mapSet rest k v

/-- Assembled string entry (`datastore.String`). -/
structure StringOut where
  id : Int
  name : String
  translations : List (Language × TranslationOut)
deriving Repr, DecidableEq

/-- Assembled domain (`datastore.Domain`). -/
structure DomainOut where
  name : String
  strings : List StringOut
deriving Repr, DecidableEq

/-- `dom.strings[sIdx].(*String).translations[l] = &t`: add the translation to
the entry at the given index. -/
def setTrans (ss : List StringOut) (idx : Nat) (l : Language) (t : TranslationOut) :
    List StringOut :=
  match ss, idx with
  | [], _ => []
  | s :: rest, 0 => { s with translations := mapSet s.translations l t } :: rest
  | s :: rest, n + 1 => s :: setTrans rest n l t

/-- The body of `GetFullDomain`'s row loop.  State: the `dom.strings` list so
far, the `stringIndex` name→index map, and the counter `i`.  A row whose
string name is already indexed adds its translation to that single entry;
otherwise a new entry is appended and indexed at position `i`. -/
def assembleStep (acc : List StringOut × List (String × Nat) × Nat) (r : JoinRow) :
    List StringOut × List (String × Nat) × Nat :=
  let l : Language := ⟨r.languageId, "", r.code⟩
  let t : TranslationOut := ⟨r.translationId, r.content⟩
  match acc.2.1.find? (fun p => decide (p.1 = r.name)) with
  | some p => (setTrans acc.1 p.2 l t, acc.2.1, acc.2.2)
  | none =>
    (acc.1 ++ [⟨r.stringId, r.name, [(l, t)]⟩],
     acc.2.1 ++ [(r.name, acc.2.2)], acc.2.2 + 1)

/-- The string list assembled by `GetFullDomain` from the join rows. -/
def assembledStrings (rows : List JoinRow) : List StringOut :=
  (rows.foldl assembleStep ([], [], 0)).1

/-- `DataStore.GetFullDomain` as a function of the join-query result: zero
rows is `sql.ErrNoRows`, otherwise the assembled domain. -/
def GetFullDomain (name : String) (rows : List JoinRow) : Except DSError DomainOut :=
  if rows.length = 0 then .error .noRows
  else .ok ⟨name, assembledStrings rows⟩

/-- Index-free reference form of one assembly step: update the first entry
whose name matches the row, else append a new entry at the end. -/
def insertRow (ss : List StringOut) (r : JoinRow) : List StringOut :=
  match ss with
  | [] => [⟨r.stringId, r.name, [(⟨r.languageId, "", r.code⟩, ⟨r.translationId, r.content⟩)]⟩]
  | s :: rest =>
    if s.name = r.name then
      { s with translations :=
          mapSet s.translations ⟨r.languageId, "", r.code⟩ ⟨r.translationId, r.content⟩ } :: rest
    else s :: insertRow rest r

/-- The name→index map as maintained by the loop: every name in order, paired
with its position (starting at `k`). -/
def namesIdxFrom (k : Nat) : List String → List (String × Nat)
  | [] => []
  | n :: rest => (n, k) :: namesIdxFrom (k + 1) rest

/-- The `stringIndex` map corresponding to an assembled list. -/
def mkIdx (ss : List StringOut) : List (String × Nat) :=
  namesIdxFrom 0 (ss.map (fun s => s.name))

/-- Position of the first entry with the given name. -/
def firstIdxOf : List String → String → Option Nat
  | [], _ => none
  | m :: rest, n => if m = n then some 0 else (firstIdxOf rest n).map (fun j => j + 1)

/-- The names contributed by a row list, in order of first appearance, given
the names already seen. -/
def firstOccsFrom (seen : List String) : List String → List String
  | [] => []
  | n :: rest =>
    if n ∈ seen then firstOccsFrom seen rest
    else n :: firstOccsFrom (n :: seen) rest

/-- The translations attached to the (first) entry with the given name. -/
def transOf (ss : List StringOut) (n : String) :
    Option (List (Language × TranslationOut)) :=
  (ss.find? (fun s => decide (s.name = n))).map (fun s => s.translations)

/-- The translation-map effect of one join row. -/
def applyRow (m : List (Language × TranslationOut)) (r : JoinRow) :
    List (Language × TranslationOut) :=
  mapSet m ⟨r.languageId, "", r.code⟩ ⟨r.translationId, r.content⟩

/-- Folding a batch of rows into an optional existing translation map: no
rows leave it as is, otherwise all rows are applied to it (an absent map
starts empty). -/
def extendTrans (o : Option (List (Language × TranslationOut)))
    (rs : List JoinRow) : Option (List (Language × TranslationOut)) :=
  match rs with
  | [] => o
  | _ :: _ => some (rs.foldl applyRow (o.getD []))

/-- Searching the index map finds the name's first position, offset by `k`. -/
theorem namesIdxFrom_find (names : List String) (k : Nat) (n : String) :
    (namesIdxFrom k names).find? (fun p => decide (p.1 = n)) =
      (firstIdxOf names n).map (fun j => (n, k + j)) := by
  induction names generalizing k with
  | nil => rfl
  | cons m rest ih =>
    unfold namesIdxFrom firstIdxOf
    by_cases hm : m = n
    · subst hm
      simp [List.find?]
    · rw [if_neg hm]
      simp only [List.find?, decide_eq_false hm]
      rw [ih (k + 1)]
      cases firstIdxOf rest n with
      | none => rfl
      | some j =>
        have h2 : k + 1 + j = k + (j + 1) := by omega
        simp [h2]

/-- Splitting the index map over an appended name list. -/
theorem namesIdxFrom_append (xs ys : List String) (k : Nat) :
    namesIdxFrom k (xs ++ ys) = namesIdxFrom k xs ++ namesIdxFrom (k + xs.length) ys := by
  induction xs generalizing k with
  | nil => simp [namesIdxFrom]
  | cons x rest ih =>
    have hcons : (x :: rest) ++ ys = x :: (rest ++ ys) := rfl
    rw [hcons]
    simp only [namesIdxFrom, List.length_cons]
    rw [ih (k + 1)]
    have h2 : k + 1 + rest.length = k + (rest.length + 1) := by omega
    rw [h2, List.cons_append]

/-- `setTrans` never changes entry names. -/
theorem setTrans_names (ss : List StringOut) (idx : Nat) (l : Language)
    (t : TranslationOut) :
    (setTrans ss idx l t).map (fun s => s.name) = ss.map (fun s => s.name) := by
  induction ss generalizing idx with
  | nil => rfl
  | cons s rest ih =>
    cases idx with
    | zero => simp [setTrans]
    | succ n => simp [setTrans, ih n]

/-- Updating at the first matching position is `insertRow`'s match branch. -/
theorem setTrans_firstIdx (ss : List StringOut) (r : JoinRow) (j : Nat)
    (hj : firstIdxOf (ss.map (fun s => s.name)) r.name = some j) :
    setTrans ss j ⟨r.languageId, "", r.code⟩ ⟨r.translationId, r.content⟩ =
      insertRow ss r := by
  induction ss generalizing j with
  | nil => cases hj
  | cons s rest ih =>
    simp only [List.map_cons, firstIdxOf] at hj
    by_cases hs : s.name = r.name
    · rw [if_pos hs] at hj
      injection hj with hj
      subst hj
      rw [setTrans, insertRow, if_pos hs]
    · rw [if_neg hs] at hj
      cases hrec : firstIdxOf (rest.map (fun s => s.name)) r.name with
      | none => rw [hrec] at hj; cases hj
      | some j2 =>
        rw [hrec] at hj
        injection hj with hj
        subst hj
        rw [insertRow, if_neg hs, setTrans, ih j2 hrec]

/-- When no entry matches, `insertRow` appends a fresh entry at the end. -/
theorem insertRow_append (ss : List StringOut) (r : JoinRow)
    (h : firstIdxOf (ss.map (fun s => s.name)) r.name = none) :
    insertRow ss r = ss ++
      [⟨r.stringId, r.name, [(⟨r.languageId, "", r.code⟩, ⟨r.translationId, r.content⟩)]⟩] := by
  induction ss with
  | nil => rfl
  | cons s rest ih =>
    simp only [List.map_cons, firstIdxOf] at h
    by_cases hs : s.name = r.name
    · rw [if_pos hs] at h; cases h
    · rw [if_neg hs] at h
      rw [insertRow, if_neg hs, List.cons_append]
      cases hrec : firstIdxOf (rest.map (fun s => s.name)) r.name with
      | none => rw [ih hrec]
      | some j2 => rw [hrec] at h; cases h

/-- The indexed loop step agrees with the index-free reference step, and
keeps the index map and counter in their canonical shape. -/
theorem assembleStep_eq (ss : List StringOut) (r : JoinRow) :
    assembleStep (ss, mkIdx ss, ss.length) r =
      (insertRow ss r, mkIdx (insertRow ss r), (insertRow ss r).length) := by
  unfold assembleStep mkIdx
  rw [namesIdxFrom_find]
  cases hidx : firstIdxOf (ss.map (fun s => s.name)) r.name with
  | some j =>
    dsimp only [Option.map]
    simp only [Nat.zero_add]
    rw [setTrans_firstIdx ss r j hidx]
    have hnames : (insertRow ss r).map (fun s => s.name) = ss.map (fun s => s.name) := by
      rw [← setTrans_firstIdx ss r j hidx, setTrans_names]
    rw [hnames]
    have hlen : (insertRow ss r).length = ss.length := by
      have := congrArg List.length hnames
      simpa using this
    rw [hlen]
  | none =>
    dsimp only [Option.map]
    rw [insertRow_append ss r hidx]
    simp only [List.map_append, List.map_cons, List.map_nil, List.length_append,
      List.length_cons, List.length_nil, List.length_map]
    rw [namesIdxFrom_append]
    simp [List.length_map, namesIdxFrom]

/-- The whole indexed loop agrees with folding the reference step. -/
theorem assemble_loop_eq (rows : List JoinRow) (ss : List StringOut) :
    rows.foldl assembleStep (ss, mkIdx ss, ss.length) =
      (rows.foldl insertRow ss, mkIdx (rows.foldl insertRow ss),
        (rows.foldl insertRow ss).length) := by
  induction rows generalizing ss with
  | nil => rfl
  | cons r rest ih =>
    rw [List.foldl_cons, List.foldl_cons, assembleStep_eq, ih]

/-- Name bookkeeping of the reference step. -/
theorem insertRow_names (ss : List StringOut) (r : JoinRow) :
    (insertRow ss r).map (fun s => s.name) =
      if r.name ∈ ss.map (fun s => s.name) then ss.map (fun s => s.name)
      else ss.map (fun s => s.name) ++ [r.name] := by
  induction ss with
  | nil => simp [insertRow]
  | cons s rest ih =>
    by_cases hs : s.name = r.name
    · rw [insertRow, if_pos hs]
      simp [hs]
    · rw [insertRow, if_neg hs]
      simp only [List.map_cons, List.mem_cons]
      by_cases hmem : r.name ∈ rest.map (fun s => s.name)
      · rw [ih]
        rw [if_pos hmem]
        rw [if_pos (Or.inr hmem)]
      · rw [ih]
        rw [if_neg hmem]
        rw [if_neg (by
          intro hor
          rcases hor with hor | hor
          · exact hs hor.symm
          · exact hmem hor)]
        simp

/-- Seen-set extensionality for `firstOccsFrom`. -/
theorem firstOccsFrom_congr (s1 s2 : List String)
    (h : ∀ x, x ∈ s1 ↔ x ∈ s2) (ns : List String) :
    firstOccsFrom s1 ns = firstOccsFrom s2 ns := by
  induction ns generalizing s1 s2 with
  | nil => rfl
  | cons n rest ih =>
    unfold firstOccsFrom
    by_cases hn : n ∈ s1
    · rw [if_pos hn, if_pos ((h n).mp hn)]
      exact ih s1 s2 h
    · rw [if_neg hn, if_neg (fun hc => hn ((h n).mpr hc))]
      rw [ih (n :: s1) (n :: s2) (by intro x; simp [h x])]

/-- Defining equation of `firstOccsFrom` on a cons. -/
theorem firstOccsFrom_cons (seen : List String) (n : String) (ns : List String) :
    firstOccsFrom seen (n :: ns) =
      if n ∈ seen then firstOccsFrom seen ns else n :: firstOccsFrom (n :: seen) ns := rfl

/-- The assembled entry names are the already-present names followed by the
rows' names in order of first appearance. -/
theorem fold_names (rows : List JoinRow) (ss : List StringOut) :
    (rows.foldl insertRow ss).map (fun s => s.name) =
      ss.map (fun s => s.name) ++
        firstOccsFrom (ss.map (fun s => s.name)) (rows.map (fun r => r.name)) := by
  induction rows generalizing ss with
  | nil => simp [firstOccsFrom]
  | cons r rest ih =>
    rw [List.foldl_cons, List.map_cons, ih (insertRow ss r), insertRow_names,
      firstOccsFrom_cons]
    by_cases hmem : r.name ∈ ss.map (fun s => s.name)
    · rw [if_pos hmem, if_pos hmem]
    · rw [if_neg hmem, if_neg hmem]
      have hiff : ∀ x, x ∈ ss.map (fun s => s.name) ++ [r.name] ↔
          x ∈ r.name :: ss.map (fun s => s.name) := by
        intro x
        rw [List.mem_append, List.mem_singleton, List.mem_cons]
        exact or_comm
      rw [firstOccsFrom_congr _ _ hiff]
      simp

/-- Translation bookkeeping of the reference step: the matching name's entry
absorbs the row, all other entries are untouched. -/
theorem insertRow_transOf (ss : List StringOut) (r : JoinRow) (n : String) :
    transOf (insertRow ss r) n =
      if r.name = n then some (applyRow ((transOf ss n).getD []) r)
      else transOf ss n := by
  induction ss with
  | nil =>
    unfold insertRow transOf applyRow
    by_cases hn : r.name = n
    · rw [if_pos hn]
      simp [List.find?, hn, mapSet]
    · rw [if_neg hn]
      simp [List.find?, hn]
  | cons s rest ih =>
    by_cases hs : s.name = r.name
    · rw [insertRow, if_pos hs]
      by_cases hn : r.name = n
      · rw [if_pos hn]
        unfold transOf applyRow
        simp [List.find?, hs, hn, hs.trans hn]
      · rw [if_neg hn]
        unfold transOf
        have hsn : ¬ (s.name = n) := fun hc => hn (hs.symm.trans hc)
        simp [List.find?, hsn]
    · rw [insertRow, if_neg hs]
      by_cases hn2 : s.name = n
      · have hrn : ¬ (r.name = n) := fun hc => hs (hn2.trans hc.symm)
        rw [if_neg hrn]
        unfold transOf
        simp [List.find?, hn2]
      · unfold transOf
        simp only [List.find?, decide_eq_false hn2]
        exact ih

/-- The translations attached to each name are exactly the fold of that
name's rows over the prior contents. -/
theorem fold_transOf (rows : List JoinRow) (ss : List StringOut) (n : String) :
    transOf (rows.foldl insertRow ss) n =
      extendTrans (transOf ss n) (rows.filter (fun r => decide (r.name = n))) := by
  induction rows generalizing ss with
  | nil => rfl
  | cons r rest ih =>
    rw [List.foldl_cons, ih (insertRow ss r), insertRow_transOf]
    by_cases hrn : r.name = n
    · rw [if_pos hrn]
      rw [List.filter_cons_of_pos (by simpa using hrn)]
      unfold extendTrans
      cases hrest : rest.filter (fun r => decide (r.name = n)) with
      | nil => simp
      | cons q qs => simp
    · rw [if_neg hrn]
      rw [List.filter_cons_of_neg (by simpa using hrn)]

/-- C7: `GetFullDomain` fails with the not-found error exactly when the
joined query returns zero rows; otherwise it succeeds, each distinct string
name contributes exactly one entry, in order of first appearance in the query
result, and the single entry for each name carries the translations of all of
that name's rows. -/
theorem getFullDomain_assembly (name : String) (rows : List JoinRow) :
    (rows = [] → GetFullDomain name rows = .error .noRows) ∧
    (rows ≠ [] →
      GetFullDomain name rows = .ok ⟨name, assembledStrings rows⟩ ∧
      (assembledStrings rows).map (fun s => s.name) =
        firstOccsFrom [] (rows.map (fun r => r.name)) ∧
      ∀ n, transOf (assembledStrings rows) n =
        extendTrans none (rows.filter (fun r => decide (r.name = n)))) := by
  constructor
  · intro h
    subst h
    rfl
  · intro h
    have hlen : rows.length ≠ 0 := by
      intro hc
      exact h (List.length_eq_zero.mp hc)
    have hloop : rows.foldl assembleStep ([], [], 0) =
        (rows.foldl insertRow [], mkIdx (rows.foldl insertRow []),
          (rows.foldl insertRow []).length) := assemble_loop_eq rows []
    refine ⟨by rw [GetFullDomain, if_neg hlen], ?_, ?_⟩
    · unfold assembledStrings
      rw [hloop]
      have hfn := fold_names rows []
      simpa using hfn
    · intro n
      unfold assembledStrings
      rw [hloop]
      exact fold_transOf rows [] n

/-- Witness for C7: the empty result errors, and on a three-row result (two
rows for "welcome", one for "other") the entry names and the translations of
the "welcome" entry evaluate as the theorem states. -/
theorem getFullDomain_assembly_witness :
    GetFullDomain "homepage" ([] : List JoinRow) = .error .noRows ∧
    GetFullDomain "homepage"
      [⟨10, "welcome", 1, "en", 100, "Welcome!"⟩,
       ⟨10, "welcome", 2, "de", 101, "Willkommen!"⟩,
       ⟨11, "other", 1, "en", 102, "Other"⟩] =
      .ok ⟨"homepage", assembledStrings
        [⟨10, "welcome", 1, "en", 100, "Welcome!"⟩,
         ⟨10, "welcome", 2, "de", 101, "Willkommen!"⟩,
         ⟨11, "other", 1, "en", 102, "Other"⟩]⟩ ∧
    (assembledStrings
        [⟨10, "welcome", 1, "en", 100, "Welcome!"⟩,
         ⟨10, "welcome", 2, "de", 101, "Willkommen!"⟩,
         ⟨11, "other", 1, "en", 102, "Other"⟩]).map (fun s => s.name) =
      ["welcome", "other"] ∧
    transOf (assembledStrings
        [⟨10, "welcome", 1, "en", 100, "Welcome!"⟩,
         ⟨10, "welcome", 2, "de", 101, "Willkommen!"⟩,
         ⟨11, "other", 1, "en", 102, "Other"⟩]) "welcome" =
      some [(⟨1, "", "en"⟩, ⟨100, "Welcome!"⟩), (⟨2, "", "de"⟩, ⟨101, "Willkommen!"⟩)] := by
  have h2 := (getFullDomain_assembly "homepage"
    [⟨10, "welcome", 1, "en", 100, "Welcome!"⟩,
     ⟨10, "welcome", 2, "de", 101, "Willkommen!"⟩,
     ⟨11, "other", 1, "en", 102, "Other"⟩]).2 (by decide)
  have h1 := (getFullDomain_assembly "homepage" []).1 rfl
  exact ⟨h1, h2.1, h2.2.1.trans (by decide), (h2.2.2 "welcome").trans (by decide)⟩

/-- The per-translation body of `ImportDomain`'s inner loop: resolve the
language, then update the existing (string, language) translation row by id
or insert a new one.  (In the source, errors of the update/insert would be
discarded by a shadowed `err`; in the in-memory model they cannot fail, so
the loop continues exactly as the source does.) -/
def importTranslations (ds : DataStore) (stringId domId : Int) :
    List (Language × String) → Option DSError × DataStore
  | [] => (none, ds)
  | (l, content) :: rest =>
    match getLanguage ds l.code with
    | .error e => (some e, ds)
    | .ok lang =>
      match lookupTranslationId ds.db stringId lang.id domId with
      | some transId =>
        importTranslations
          { ds with db := updateTranslation ds.db transId lang.id content stringId }
          stringId domId rest
      | none =>
        importTranslations
          { ds with db := (createTranslation ds.db lang.id content stringId).2 }
          stringId domId rest

/-- The per-string body of `ImportDomain`'s outer loop: take the string id
from the `stringCache` or create-or-get it (populating the cache), then
feed in the string's translations. -/
def importStrings (ds : DataStore) (domId : Int) :
    List TransString → Option DSError × DataStore
  | [] => (none, ds)
  | s :: rest =>
    match ds.stringCache.find? (fun p => decide (p.1 = (domId, s.name))) with
    | some p =>
      match importTranslations ds p.2 domId s.translations with
      | (some e, ds2) => (some e, ds2)
      | (none, ds2) => importStrings ds2 domId rest
    | none =>
      match createOrGetString ds s.name domId with
      | (.error e, ds1) => (some e, ds1)
      | (.ok stringId, ds1) =>
        let ds2 := { ds1 with
          stringCache := ds1.stringCache ++ [((domId, s.name), stringId)] }
        match importTranslations ds2 stringId domId s.translations with
        | (some e, ds3) => (some e, ds3)
        | (none, ds3) => importStrings ds3 domId rest

/-- `DataStore.ImportDomain`: create-or-get the domain, then import every
string. -/
def ImportDomain (ds : DataStore) (d : TransDomain) : Option DSError × DataStore :=
  match createOrGetDomain ds d.name with
  | (.error e, ds1) => (some e, ds1)
  | (.ok domId, ds1) => importStrings ds1 domId d.strings

/-- An error of the import pipeline: a decode failure from the codec or a
datastore failure from the import. -/
inductive ImpError where
  | decode (e : XliffError)
  | store (e : DSError)
deriving Repr, DecidableEq

/-- `filepath.Glob` can only fail with `ErrBadPattern`. -/
inductive GlobError where
  | badPattern
deriving Repr, DecidableEq

/-- One iteration of `ImportDir`'s loop for one file, given the file's base
name and its decode outcome (decoding reads the file system, so its result is
supplied as data): a decode error aborts, otherwise the decoded domain is fed
to `ImportDomain`. -/
def importFile (ds : DataStore) (f : String × Except XliffError TransDomain) :
    Option ImpError × DataStore :=
  match f.2 with
  | .error e => (some (.decode e), ds)
  | .ok d =>
    match ImportDomain ds d with
    | (some e, ds2) => (some (.store e), ds2)
    | (none, ds2) => (none, ds2)

/-- `ImportDir`'s loop over the globbed files in listing order, carrying the
index `i` and the base names sent on the `notify` channel so far.  A failure
at the current file returns the current index (the number of files already
processed) with the triggering error and the state as left by the failure. -/
def importLoop (ds : DataStore) (i : Nat) (notes : List String) :
    List (String × Except XliffError TransDomain) →
      (Nat × Option ImpError) × DataStore × List String
  | [] => ((i, none), ds, notes)
  | f :: rest =>
    match importFile ds f with
    | (some e, ds2) => ((i, some e), ds2, notes)
    | (none, ds2) => importLoop ds2 (i + 1) (notes ++ [f.1]) rest

/-- `DataStore.ImportDir` as a function of the glob outcome.  Note the
`return 0, nil` in the source when `filepath.Glob` fails: the error is
discarded. -/
def ImportDir (ds : DataStore)
    (glob : Except GlobError (List (String × Except XliffError TransDomain))) :
    (Nat × Option ImpError) × DataStore × List String :=
  match glob with
  | .error _ => ((0, none), ds, [])
  | .ok files => importLoop ds 0 [] files

/-- Sequential import of a file list, defined only when every file
succeeds. -/
def importAllOk (ds : DataStore) :
    List (String × Except XliffError TransDomain) → Option DataStore
  | [] => some ds
  | f :: rest =>
    match importFile ds f with
    | (none, ds2) => importAllOk ds2 rest
    | (some _, _) => none

/-- Behaviour of `ImportDir`'s loop, generalized over the start index and the
notifications already sent. -/
theorem importLoop_spec (files : List (String × Except XliffError TransDomain))
    (ds : DataStore) (i : Nat) (notes0 : List String)
    (cnt : Nat) (er : Option ImpError) (ds' : DataStore) (notes : List String)
    (hrun : importLoop ds i notes0 files = ((cnt, er), ds', notes)) :
    (er = none → cnt = i + files.length ∧ importAllOk ds files = some ds' ∧
      notes = notes0 ++ files.map (fun f => f.1)) ∧
    (∀ e, er = some e → i ≤ cnt ∧ cnt - i < files.length ∧
      ∃ dsPre f, importAllOk ds (files.take (cnt - i)) = some dsPre ∧
        files.get? (cnt - i) = some f ∧ importFile dsPre f = (some e, ds') ∧
        notes = notes0 ++ ((files.take (cnt - i)).map (fun f => f.1))) := by
  induction files generalizing ds i notes0 with
  | nil =>
    unfold importLoop at hrun
    injection hrun with h1 h2
    injection h1 with hc he
    injection h2 with hd hn
    subst hc; subst he; subst hd; subst hn
    constructor
    · intro _
      exact ⟨by simp, rfl, by simp⟩
    · intro e he
      cases he
  | cons f rest ih =>
    unfold importLoop at hrun
    cases himp : importFile ds f with
    | mk oe ds2 =>
      rw [himp] at hrun
      cases oe with
      | some e0 =>
        dsimp only at hrun
        injection hrun with h1 h2
        injection h1 with hc he
        injection h2 with hd hn
        subst hc; subst he; subst hd; subst hn
        constructor
        · intro he; cases he
        · intro e he
          injection he with he
          subst he
          refine ⟨le_refl i, by simp, ds, f, ?_, ?_, ?_, ?_⟩
          · rw [Nat.sub_self]
            rfl
          · rw [Nat.sub_self]
            rfl
          · exact himp
          · rw [Nat.sub_self]
            simp
      | none =>
        dsimp only at hrun
        have hspec := ih ds2 (i + 1) (notes0 ++ [f.1]) hrun
        constructor
        · intro he
          rcases hspec.1 he with ⟨h1, h2, h3⟩
          refine ⟨by simp [h1]; omega, ?_, ?_⟩
          · unfold importAllOk
            rw [himp]
            exact h2
          · rw [h3]
            simp
        · intro e he
          rcases hspec.2 e he with ⟨hle, hlt, dsPre, f2, h1, h2, h3, h4⟩
          have hsub : cnt - i = (cnt - (i + 1)) + 1 := by omega
          refine ⟨by omega, by simp; omega, dsPre, f2, ?_, ?_, h3, ?_⟩
          · rw [hsub, List.take_succ_cons]
            unfold importAllOk
            rw [himp]
            exact h1
          · rw [hsub]
            exact h2
          · rw [hsub, List.take_succ_cons]
            rw [h4]
            simp

/-- C8: `ImportDir` on a successful glob processes files in listing order;
on full success it returns the file count, the state of importing every file,
and a notification per file; when the file at position `cnt` fails to decode
or import, it stops there, returning that position (the number of files
successfully processed) with the triggering error, the database state of the
successful prefix plus the failing attempt (prior files' changes retained),
and notifications only for the prefix. -/
theorem importDir_aborts_on_first_error (ds : DataStore)
    (files : List (String × Except XliffError TransDomain))
    (cnt : Nat) (er : Option ImpError) (ds' : DataStore) (notes : List String)
    (hrun : ImportDir ds (.ok files) = ((cnt, er), ds', notes)) :
    (er = none → cnt = files.length ∧ importAllOk ds files = some ds' ∧
      notes = files.map (fun f => f.1)) ∧
    (∀ e, er = some e → cnt < files.length ∧
      ∃ dsPre f, importAllOk ds (files.take cnt) = some dsPre ∧
        files.get? cnt = some f ∧ importFile dsPre f = (some e, ds') ∧
        notes = (files.take cnt).map (fun f => f.1)) := by
  have hspec := importLoop_spec files ds 0 [] cnt er ds' notes hrun
  constructor
  · intro he
    rcases hspec.1 he with ⟨h1, h2, h3⟩
    exact ⟨by omega, h2, by simpa using h3⟩
  · intro e he
    rcases hspec.2 e he with ⟨hle, hlt, dsPre, f, h1, h2, h3, h4⟩
    refine ⟨by omega, dsPre, f, ?_, ?_, h3, ?_⟩
    · simpa using h1
    · simpa using h2
    · simpa using h4

/-- Witness for C8: a one-file directory imports fully, returning count 1,
the imported state and one notification. -/
theorem importDir_aborts_on_first_error_witness :
    (ImportDir ⟨⟨[], [⟨1, "English", "en"⟩], [], [], 1, 2, 1, 1⟩, [], []⟩
      (.ok [("homepage.en.xliff",
        .ok ⟨"homepage", [⟨"welcome", [(⟨0, "", "en"⟩, "Hi")]⟩]⟩)])).1.1 = 1 ∧
    importAllOk ⟨⟨[], [⟨1, "English", "en"⟩], [], [], 1, 2, 1, 1⟩, [], []⟩
      [("homepage.en.xliff", .ok ⟨"homepage", [⟨"welcome", [(⟨0, "", "en"⟩, "Hi")]⟩]⟩)] =
      some (ImportDir ⟨⟨[], [⟨1, "English", "en"⟩], [], [], 1, 2, 1, 1⟩, [], []⟩
        (.ok [("homepage.en.xliff",
          .ok ⟨"homepage", [⟨"welcome", [(⟨0, "", "en"⟩, "Hi")]⟩]⟩)])).2.1 ∧
    (ImportDir ⟨⟨[], [⟨1, "English", "en"⟩], [], [], 1, 2, 1, 1⟩, [], []⟩
      (.ok [("homepage.en.xliff",
        .ok ⟨"homepage", [⟨"welcome", [(⟨0, "", "en"⟩, "Hi")]⟩]⟩)])).2.2 =
      ["homepage.en.xliff"] := by
  have h := (importDir_aborts_on_first_error
    ⟨⟨[], [⟨1, "English", "en"⟩], [], [], 1, 2, 1, 1⟩, [], []⟩
    [("homepage.en.xliff", .ok ⟨"homepage", [⟨"welcome", [(⟨0, "", "en"⟩, "Hi")]⟩]⟩)]
    _ _ _ _ rfl).1 rfl
  exact ⟨h.1, h.2.1, h.2.2⟩

/-- The kind of driver-level failure injected for the C9 check. -/
inductive DriverError where
  | execFailed
deriving Repr, DecidableEq

/-- First-revision `createDomain` (the pre-adapter `DataStore`,
`datastore.go` lines 155–170), with the outcomes of `db.Exec` and
`result.LastInsertId` supplied as data.  The source's error check reads
`if err != nil { return 0, nil }`, discarding the execution error. -/
def createDomainV1 (execResult : Except DriverError Unit)
    (lastInsertId : Except DriverError Int) : Int × Option DriverError :=
  match execResult with
  | .error _ => (0, none)
  | .ok _ =>
    match lastInsertId with
    | .error e => (0, some e)
    | .ok i => (i, none)

/-- C9 divergence, evaluated: a failing glob makes `ImportDir` return
`(0, nil)` — the error is swallowed, the claim requires a non-nil error —
and a failing insert makes the first-revision `createDomain` return
`(0, nil)` likewise. -/
theorem importDir_createDomain_swallow_errors (ds : DataStore) :
    ImportDir ds (.error .badPattern) = ((0, none), ds, []) ∧
    createDomainV1 (.error .execFailed) (.ok 1) = (0, none) :=
  ⟨rfl, rfl⟩

end TransApi
